import Mathlib

/-!
Shallow embedding of the ChatGPT-Micro-Cap-Experiment repository, covering
the recommendation parser (`src/decision_maker.py`, `DecisionMaker._parse_actions`),
the dashboard read path (`app.py`), the market-data fetcher
(`src/data_fetcher.py`), and the portfolio state machine (`advance`, modelled
from the spec because `trading_script.py` is not among the sources).

Python strings are embedded as Lean `String`; the string primitives the code
uses (`strip`, `split`, `split('\n')`, `startswith`, `rstrip(':')`,
`' '.join`, `int(...)`, `float(...)`) are given explicit structural
definitions over `String.data` below, so that every concrete claim can be
settled by kernel evaluation.  Numeric values produced by Python `int`/`float`
are embedded as `Int`/`Rat`; every numeric literal appearing in the claims
(10, 5.5, 4.5, ...) is exactly representable, so `Rat` and IEEE semantics
agree on all facts proved here.
-/

/-- Python `s.split(sep)` for a one-character separator: split at every
occurrence of the separator, keeping empty pieces (`''.split(sep) == ['']`). -/
def splitListBy (p : Char → Bool) : List Char → List (List Char)
  | [] => [[]]
  | c :: rest =>
    let r := splitListBy p rest
    if p c then [] :: r
    else
      match r with
      | [] => [[c]]
      | w :: ws => (c :: w) :: ws

/-- Python `text.split('\n')`. -/
def pySplitLines (s : String) : List String :=
  (splitListBy (fun c => c == '\n') s.data).map String.mk

/-- Python `s.split()` with no argument: split on runs of whitespace,
discarding empty tokens (so leading/trailing whitespace is ignored). -/
def pySplit (s : String) : List String :=
  ((splitListBy Char.isWhitespace s.data).filter (fun w => w ≠ [])).map String.mk

/-- Python `s.strip()` (ASCII whitespace, which covers every input the
claims mention). -/
def pyStrip (s : String) : String :=
  String.mk (((s.data.dropWhile Char.isWhitespace).reverse.dropWhile Char.isWhitespace).reverse)

/-- Python `s.startswith(pre)` as a prefix test on the character lists. -/
def listIsPre : List Char → List Char → Bool
  | [], _ => true
  | _ :: _, [] => false
  | a :: as, b :: bs => a == b && listIsPre as bs

/-- Python `s.startswith(pre)`. -/
def pyStartsWith (s pre : String) : Bool :=
  listIsPre pre.data s.data

/-- Python string `<` (and the comparison pandas `max` relies on):
lexicographic by code point. -/
def listLt : List Char → List Char → Bool
  | [], [] => false
  | [], _ :: _ => true
  | _ :: _, [] => false
  | a :: as, b :: bs => a < b || (a == b && listLt as bs)

/-- Python `s < t` on strings. -/
def pyStrLt (s t : String) : Bool :=
  listLt s.data t.data

/-- Python `s.rstrip(':')`: remove every trailing colon. -/
def pyRstripColon (s : String) : String :=
  String.mk ((s.data.reverse.dropWhile (fun c => c == ':')).reverse)

/-- Python `' '.join(parts)`. -/
def pyJoinSpace (ls : List String) : String :=
  String.intercalate " " ls

/-- Decimal value of a digit list (the tokens fed to it are whitespace-free). -/
def digitsToNat (l : List Char) : Nat :=
  l.foldl (fun a c => a * 10 + (c.toNat - 48)) 0

/-- Unsigned core of Python `int(token)`: a nonempty run of decimal digits.
(The exotic forms Python also accepts — underscores, non-ASCII digits — never
occur in the inputs any claim is about.) -/
def pyIntCore (l : List Char) : Option Int :=
  if l ≠ [] ∧ l.all Char.isDigit then some (digitsToNat l : Int) else none

/-- Python `int(token)` on a whitespace-free token: optional sign, then
decimal digits; anything else raises `ValueError`, embedded as `none`. -/
def pyIntOf (s : String) : Option Int :=
  match s.data with
  | '+' :: rest => pyIntCore rest
  | '-' :: rest => (pyIntCore rest).map (fun n => -n)
  | l => pyIntCore l

/-- Unsigned core of Python `float(token)`: `digits`, `digits.`, `digits.digits`
or `.digits`.  (Exponent, `inf`/`nan` and underscore forms never occur in the
inputs any claim is about.) -/
def pyFloatCore (l : List Char) : Option Rat :=
  let ip := l.takeWhile Char.isDigit
  let rest := l.dropWhile Char.isDigit
  match rest with
  | [] => if ip = [] then none else some (mkRat (digitsToNat ip) 1)
  | '.' :: frac =>
    if frac.all Char.isDigit ∧ (ip ≠ [] ∨ frac ≠ []) then
      some (mkRat (digitsToNat ip * 10 ^ frac.length + digitsToNat frac) (10 ^ frac.length))
    else none
  | _ => none

/-- Python `float(token)` on a whitespace-free token; failure (`ValueError`)
is embedded as `none`. -/
def pyFloatOf (s : String) : Option Rat :=
  match s.data with
  | '+' :: rest => pyFloatCore rest
  | '-' :: rest => (pyFloatCore rest).map Neg.neg
  | l => pyFloatCore l

/-- The parsed recommendation (`decision_maker.py` builds dicts with an
`action` tag and these exact fields; the tag becomes the constructor). -/
inductive TradeAction where
  | HOLD (ticker reason : String)
  | SELL (ticker : String) (shares : Int) (price : Rat) (reason : String)
  | BUY (ticker : String) (shares : Int) (max_price stop_loss : Rat) (reason : String)
deriving DecidableEq, Repr

/-- The body of the per-line loop of `DecisionMaker._parse_actions`, applied to
an already-stripped line.  In the SELL/BUY branches the `try`-block evaluates
`int(parts[2])` and then `float(parts[4])` (and `float(parts[6])` for BUY);
a `ValueError` from any of them skips the line, embedded as nested `Option`
matches.  Note the source indexes from `parts[1]` although `parts[0]` is the
leading `-`. -/
def parseStripped (line : String) : Option TradeAction :=
  if pyStartsWith line "- HOLD" then
    let parts := pySplit line
    if 2 ≤ parts.length then
      some (TradeAction.HOLD (pyRstripColon (parts.getD 1 "")) (pyJoinSpace (parts.drop 2)))
    else none
  else if pyStartsWith line "- SELL" then
    let parts := pySplit line
    if 5 ≤ parts.length then
      match pyIntOf (parts.getD 2 "") with
      | none => none
      | some sh =>
        match pyFloatOf (parts.getD 4 "") with
        | none => none
        | some pr => some (TradeAction.SELL (parts.getD 1 "") sh pr (pyJoinSpace (parts.drop 5)))
    else none
  else if pyStartsWith line "- BUY" then
    let parts := pySplit line
    if 7 ≤ parts.length then
      match pyIntOf (parts.getD 2 "") with
      | none => none
      | some sh =>
        match pyFloatOf (parts.getD 4 "") with
        | none => none
        | some mp =>
          match pyFloatOf (parts.getD 6 "") with
          | none => none
          | some sl => some (TradeAction.BUY (parts.getD 1 "") sh mp sl (pyJoinSpace (parts.drop 7)))
    else none
  else none

/-- One iteration of the loop in `_parse_actions`: `line = line.strip()` and
then the prefix dispatch. -/
def parseLine (raw : String) : Option TradeAction :=
  parseStripped (pyStrip raw)

/-- `DecisionMaker._parse_actions`: split the response into lines and collect
the actions each line yields, in order.  Lines that match no branch or whose
numeric conversions fail contribute nothing; the function is total, so every
input yields a (possibly empty) list. -/
def parse_actions (text : String) : List TradeAction :=
  (pySplitLines text).filterMap parseLine

/-- One row of `chatgpt_portfolio_update.csv` as the dashboard loads it
(`app.py`).  Column names follow the CSV header exercised by
`tests/test_data.py`; cells that can be blank (the TOTAL row leaves the
per-position columns empty, position rows leave the cash columns empty) are
`Option`s.  The dashboard projections only inspect `Date` and `Ticker`. -/
structure HoldingRow where
  Date : String
  Ticker : String
  Shares : Option Rat
  BuyPrice : Option Rat
  CostBasis : Option Rat
  StopLoss : Option Rat
  CurrentPrice : Option Rat
  TotalValue : Option Rat
  PnL : Option Rat
  ActionCol : Option String
  CashBalance : Option Rat
  TotalEquity : Option Rat
deriving DecidableEq, Repr

/-- `portfolio['Date'].max()`: the maximum of the `Date` column under
lexicographic string comparison (pandas compares the CSV date strings as
Python `str`; ISO dates make this the chronological maximum).  Only ever
used on a nonempty table — both call sites in `app.py` are guarded by
`if not portfolio.empty`. -/
def maxDate : List HoldingRow → String
  | [] => ""
  | r :: rs => rs.foldl (fun acc x => if pyStrLt acc x.Date then x.Date else acc) r.Date

/-- `app.py` `dashboard`: `latest_portfolio = portfolio[(portfolio['Date'] ==
latest_date) & (portfolio['Ticker'] != 'TOTAL')]` — a boolean-mask filter,
which keeps the surviving rows in table order. -/
def latest_portfolio (p : List HoldingRow) : List HoldingRow :=
  p.filter (fun r => r.Date == maxDate p && !(r.Ticker == "TOTAL"))

/-- `app.py` `api_portfolio`: `latest_data = portfolio[portfolio['Date'] ==
latest_date]`. -/
def latest_data (p : List HoldingRow) : List HoldingRow :=
  p.filter (fun r => r.Date == maxDate p)

/-- `app.py` `load_portfolio_data`: the file's rows when the CSV exists
(`some rows`), an empty table when it does not (`none`). -/
def load_portfolio_data (file : Option (List HoldingRow)) : List HoldingRow :=
  match file with
  | some df => df
  | none => []

/-- `app.py` `load_trade_data`; the trade-log rows are never inspected by the
routes, so the row type is a parameter. -/
def load_trade_data {α : Type} (file : Option (List α)) : List α :=
  match file with
  | some df => df
  | none => []

/-- `app.py` `api_portfolio` route: Flask answers 200 both for the
`to_json(orient='records')` branch and for `jsonify([])`; the body is the
JSON array's row list. -/
def api_portfolio_route (file : Option (List HoldingRow)) : Nat × List HoldingRow :=
  let portfolio := load_portfolio_data file
  if !portfolio.isEmpty then (200, latest_data portfolio)
  else (200, [])

/-- `app.py` `api_performance` route: the TOTAL rows, or `[]` when the file
is missing or empty. -/
def api_performance_route (file : Option (List HoldingRow)) : Nat × List HoldingRow :=
  let portfolio := load_portfolio_data file
  if !portfolio.isEmpty then (200, portfolio.filter (fun r => r.Ticker == "TOTAL"))
  else (200, [])

/-- `app.py` `api_trades` route: the whole trade log, or `[]` when the file
is missing or empty. -/
def api_trades_route {α : Type} (file : Option (List α)) : Nat × List α :=
  let trades := load_trade_data file
  if !trades.isEmpty then (200, trades)
  else (200, [])

/-- Outcome of one `yf.Ticker(t).history(period="1d")` call in
`data_fetcher.py`: either the provider raised (caught by the
`except Exception` handler) or it returned a price table, whose `Close`
column may be empty. -/
inductive FetchOutcome where
  | err
  | price_table (closes : List Rat)

/-- `DataFetcher.get_current_price`: `float(data['Close'].iloc[-1])` when the
history is nonempty (`iloc[-1]` is the last entry), `None` when the table is
empty or the fetch raised. -/
def get_current_price (fetch : String → FetchOutcome) (ticker : String) : Option Rat :=
  match fetch ticker with
  | FetchOutcome.err => none
  | FetchOutcome.price_table closes => closes.getLast?

/-- Python `dict` assignment `prices[ticker] = price`: overwrite in place if
the key is present, else append at the end (insertion order is preserved). -/
def dictInsert (d : List (String × Rat)) (k : String) (v : Rat) : List (String × Rat) :=
  if d.any (fun kv => kv.1 == k) then d.map (fun kv => if kv.1 == k then (k, v) else kv)
  else d ++ [(k, v)]

/-- Loop body of `DataFetcher.get_multiple_prices`:
`price = self.get_current_price(ticker); if price is not None:
prices[ticker] = price`. -/
def pricesStep (fetch : String → FetchOutcome) (prices : List (String × Rat))
    (ticker : String) : List (String × Rat) :=
  match get_current_price fetch ticker with
  | some price => dictInsert prices ticker price
  | none => prices

/-- `DataFetcher.get_multiple_prices`: fold the loop body over the tickers,
starting from the empty dict. -/
def get_multiple_prices (fetch : String → FetchOutcome) (tickers : List String) :
    List (String × Rat) :=
  tickers.foldl (pricesStep fetch) []

/-- Modelled from the spec: one open position row handled by the Portfolio
State Machine of §4.1.  The implementation (`process_portfolio` in
`trading_script.py`, imported by `src/trading_engine.py` and the scripts) is
not among the sources, so the row carries exactly the per-position fields of
§3's HoldingRow. -/
structure PositionRow where
  ticker : String
  shares : Rat
  buy_price : Rat
  cost_basis : Rat
  stop_loss : Rat
  current_price : Rat
  total_value : Rat
  pnl : Rat
deriving DecidableEq, Repr

/-- Modelled from the spec: a §3 TradeLogRow as `advance` emits it for a
forced sell.  The `date` column is stamped by the ledger writer, outside
`advance`'s contract, and is omitted here. -/
structure TradeLogRow where
  ticker : String
  action : String
  shares : Rat
  price : Rat
  pnl : Rat
deriving DecidableEq, Repr

/-- The trade-log row a forced sell appends: a SELL of all shares at the
triggering price, realising proceeds minus cost basis. -/
def sellRow (pos : PositionRow) (price : Rat) : TradeLogRow :=
  { ticker := pos.ticker, action := "SELL", shares := pos.shares, price := price,
    pnl := pos.shares * price - pos.cost_basis }

/-- Modelled from the spec: the §4.1 "otherwise" branch, refreshing
`current_price`, `total_value` and the unrealized `pnl` of a surviving row. -/
def refreshRow (pos : PositionRow) (q : Rat) : PositionRow :=
  { pos with current_price := q, total_value := pos.shares * q,
             pnl := pos.shares * q - pos.cost_basis }

/-- Modelled from the spec: §4.1 `advance(holdings, cash, prices_by_ticker) ->
(new_holdings, new_cash, forced_sells)`.  For each held position, if a fresh
price is available and `price ≤ stop_loss`, the position is dropped, cash is
credited with `shares × price` and one SELL TradeLogRow is appended;
otherwise `current_price`, `total_value` and `pnl` are refreshed (or the row
is kept as is when no price is available).  Recomputing the synthetic TOTAL
row and the non-trading-day error are outside this model: prices are given. -/
def advance : List PositionRow → Rat → (String → Option Rat) →
    List PositionRow × Rat × List TradeLogRow
  | [], cash, _ => ([], cash, [])
  | pos :: rest, cash, prices =>
    match prices pos.ticker with
    | some price =>
      if price ≤ pos.stop_loss then
        let r := advance rest (cash + pos.shares * price) prices
        (r.1, r.2.1, sellRow pos price :: r.2.2)
      else
        let r := advance rest cash prices
        (refreshRow pos price :: r.1, r.2.1, r.2.2)
    | none =>
      let r := advance rest cash prices
      (pos :: r.1, r.2.1, r.2.2)

/-- What `advance` does to one held position's row: dropped when a fresh
price triggers the stop-loss, refreshed when a fresh price does not, kept
unchanged when no price is available. -/
def keepRow (f : String → Option Rat) (pos : PositionRow) : Option PositionRow :=
  match f pos.ticker with
  | some q => if q ≤ pos.stop_loss then none else some (refreshRow pos q)
  | none => some pos

/-- The cash credited for one held position: `shares × price` when the
stop-loss fires, nothing otherwise. -/
def stopContribution (f : String → Option Rat) (pos : PositionRow) : Rat :=
  match f pos.ticker with
  | some q => if q ≤ pos.stop_loss then pos.shares * q else 0
  | none => 0

/-- The trade-log row one held position generates: a SELL record exactly when
the stop-loss fires. -/
def sellLog (f : String → Option Rat) (pos : PositionRow) : Option TradeLogRow :=
  match f pos.ticker with
  | some q => if q ≤ pos.stop_loss then some (sellRow pos q) else none
  | none => none

/-- A two-day holdings table with one TOTAL row per date, used to instantiate
the dashboard theorems. -/
def sampleHoldings : List HoldingRow :=
  [⟨"2025-01-01", "ABEO", some 10, some 5, some 50, some 4, some 5, some 50, some 0,
      none, none, none⟩,
   ⟨"2025-01-01", "TOTAL", none, none, none, none, none, some 150, some 0,
      none, some 100, some 150⟩,
   ⟨"2025-01-02", "ABEO", some 10, some 5, some 50, some 4, some 6, some 60, some 10,
      none, none, none⟩,
   ⟨"2025-01-02", "TOTAL", none, none, none, none, none, some 160, some 10,
      none, some 100, some 160⟩]

/-- A position whose stop-loss (5) is above the sample market price (4),
used to instantiate the forced-sell theorem. -/
def samplePosition : PositionRow :=
  ⟨"ABEO", 10, 5, 50, 5, 5, 50, 0⟩

/-- A price table quoting 4 for the sample position's ticker and nothing
else. -/
def samplePrices : String → Option Rat :=
  fun t => if t = "ABEO" then some 4 else none

/-- A line that starts with `"- SELL"` cannot also start with `"- HOLD"`:
the two prefixes differ at their third character. -/
theorem sell_line_not_hold (s : String) (h : pyStartsWith s "- SELL" = true) :
    pyStartsWith s "- HOLD" = false := by
  obtain ⟨data⟩ := s
  unfold pyStartsWith at h ⊢
  match data with
  | [] => simp [listIsPre] at h
  | [c1] => simp [listIsPre] at h
  | [c1, c2] => simp [listIsPre] at h
  | c1 :: c2 :: c3 :: rest =>
    simp only [listIsPre, Bool.and_eq_true, beq_iff_eq] at h
    obtain ⟨h1, h2, h3, -⟩ := h
    subst h1; subst h2; subst h3
    simp [listIsPre]

/-- A line that starts with `"- BUY"` cannot also start with `"- HOLD"`. -/
theorem buy_line_not_hold (s : String) (h : pyStartsWith s "- BUY" = true) :
    pyStartsWith s "- HOLD" = false := by
  obtain ⟨data⟩ := s
  unfold pyStartsWith at h ⊢
  match data with
  | [] => simp [listIsPre] at h
  | [c1] => simp [listIsPre] at h
  | [c1, c2] => simp [listIsPre] at h
  | c1 :: c2 :: c3 :: rest =>
    simp only [listIsPre, Bool.and_eq_true, beq_iff_eq] at h
    obtain ⟨h1, h2, h3, -⟩ := h
    subst h1; subst h2; subst h3
    simp [listIsPre]

/-- A line that starts with `"- BUY"` cannot also start with `"- SELL"`. -/
theorem buy_line_not_sell (s : String) (h : pyStartsWith s "- BUY" = true) :
    pyStartsWith s "- SELL" = false := by
  obtain ⟨data⟩ := s
  unfold pyStartsWith at h ⊢
  match data with
  | [] => simp [listIsPre] at h
  | [c1] => simp [listIsPre] at h
  | [c1, c2] => simp [listIsPre] at h
  | c1 :: c2 :: c3 :: rest =>
    simp only [listIsPre, Bool.and_eq_true, beq_iff_eq] at h
    obtain ⟨h1, h2, h3, -⟩ := h
    subst h1; subst h2; subst h3
    simp [listIsPre]

/-- C1: on the single documented-format line `"- SELL TEST 10 at 5.5: because"`
the parser produces NO action at all (the claimed single SELL action
`{ticker := "TEST", shares := 10, price := 11/2, reason := "because"}` is not
produced): because `parts[0]` is `"-"`, the code reads the keyword `"SELL"`
as the ticker and tries `int("TEST")` for the shares, which raises and
skips the line. -/
theorem sell_documented_line_parses_to_nothing :
    parse_actions "- SELL TEST 10 at 5.5: because" = [] := by decide

/-- C2: on the single documented-format line
`"- BUY TEST 10 at 5.5 stop_loss 4.5: upside"` the parser produces NO action
(the claimed BUY action is not produced), for the same off-by-one reason
as C1: `int(parts[2])` is `int("TEST")`, which raises and skips the line. -/
theorem buy_documented_line_parses_to_nothing :
    parse_actions "- BUY TEST 10 at 5.5 stop_loss 4.5: upside" = [] := by decide

/-- C3: on the HOLD line `"- HOLD AAPL: strong outlook"` (ticker token
`AAPL`), the parser emits a HOLD action whose ticker field is the literal
keyword `"HOLD"` (`parts[1]` with trailing colons stripped) and whose reason
is everything from the ticker token on — not the claimed ticker `"AAPL"`
with reason `"strong outlook"`. -/
theorem hold_line_ticker_is_keyword :
    parse_actions "- HOLD AAPL: strong outlook" =
      [TradeAction.HOLD "HOLD" "AAPL: strong outlook"] := by decide

/-- C4: a SELL or BUY line whose shares token fails `int(...)` or whose price
token(s) fail `float(...)` contributes zero actions (the tokens named are
exactly the ones the code converts: `parts[2]`, `parts[4]`, and `parts[6]`
for BUY); and on the spec's example line the whole parse returns the empty
list rather than failing.  `parse_actions` is total by construction, so no
input makes the parse of the whole text fail. -/
theorem nonnumeric_sell_buy_line_skipped :
    (∀ line : String,
        (pyStartsWith (pyStrip line) "- SELL" = true →
          pyIntOf ((pySplit (pyStrip line)).getD 2 "") = none ∨
            pyFloatOf ((pySplit (pyStrip line)).getD 4 "") = none →
          parseLine line = none) ∧
        (pyStartsWith (pyStrip line) "- BUY" = true →
          pyIntOf ((pySplit (pyStrip line)).getD 2 "") = none ∨
            pyFloatOf ((pySplit (pyStrip line)).getD 4 "") = none ∨
            pyFloatOf ((pySplit (pyStrip line)).getD 6 "") = none →
          parseLine line = none)) ∧
    parse_actions "- SELL TEST abc at 5.5: x" = [] := by
  refine ⟨fun line => ⟨?_, ?_⟩, by decide⟩
  · intro hs hbad
    have hh := sell_line_not_hold _ hs
    unfold parseLine parseStripped
    rw [hh, hs]
    simp only [Bool.false_eq_true, if_false, if_true]
    by_cases hlen : 5 ≤ (pySplit (pyStrip line)).length
    · rw [if_pos hlen]
      rcases hbad with hbad | hbad
      · rw [hbad]
      · cases hint : pyIntOf ((pySplit (pyStrip line)).getD 2 "") with
        | none => rfl
        | some sh => rw [hbad]
    · rw [if_neg hlen]
  · intro hb hbad
    have hh := buy_line_not_hold _ hb
    have hs := buy_line_not_sell _ hb
    unfold parseLine parseStripped
    rw [hh, hs, hb]
    simp only [Bool.false_eq_true, if_false, if_true]
    by_cases hlen : 7 ≤ (pySplit (pyStrip line)).length
    · rw [if_pos hlen]
      rcases hbad with hbad | hbad | hbad
      · rw [hbad]
      · cases hint : pyIntOf ((pySplit (pyStrip line)).getD 2 "") with
        | none => rfl
        | some sh => rw [hbad]
      · cases hint : pyIntOf ((pySplit (pyStrip line)).getD 2 "") with
        | none => rfl
        | some sh =>
          cases hfl : pyFloatOf ((pySplit (pyStrip line)).getD 4 "") with
          | none => rfl
          | some mp => rw [hbad]
    · rw [if_neg hlen]

/-- Witness for C4 at the line `"- SELL A bc at 1: r"`, whose shares token
`parts[2] = "A"` is not numeric. -/
theorem nonnumeric_sell_buy_line_skipped_inst :
    parseLine "- SELL A bc at 1: r" = none :=
  (nonnumeric_sell_buy_line_skipped.1 "- SELL A bc at 1: r").1 (by decide) (Or.inl (by decide))

/-- C5 counterexample: the line `"- SELL 10 x 4.5 r"` contains no `"at"`
token anywhere, yet the parser produces a SELL action from it (shares from
`parts[2] = "10"`, price from `parts[4] = "4.5"`).  So a SELL action does
NOT require a literal `"at"` between the shares and price tokens. -/
theorem sell_action_without_at_cex :
    parse_actions "- SELL 10 x 4.5 r" = [TradeAction.SELL "SELL" 10 (mkRat 9 2) "r"] ∧
    "at" ∉ pySplit (pyStrip "- SELL 10 x 4.5 r") := by decide

/-- C5 amended: the parser never compares any token against `"at"`.  A line
whose stripped form starts with `"- SELL"` yields an action exactly when it
has at least five whitespace tokens, token 2 converts with `int` and token 4
converts with `float`; the token between the shares and price tokens is
ignored. -/
theorem sell_action_iff_tokens_convert (line : String)
    (h : pyStartsWith (pyStrip line) "- SELL" = true) :
    (parseLine line).isSome ↔
      (5 ≤ (pySplit (pyStrip line)).length ∧
        (pyIntOf ((pySplit (pyStrip line)).getD 2 "")).isSome ∧
        (pyFloatOf ((pySplit (pyStrip line)).getD 4 "")).isSome) := by
  have hh := sell_line_not_hold _ h
  unfold parseLine parseStripped
  rw [hh, h]
  simp only [Bool.false_eq_true, if_false, if_true]
  by_cases hlen : 5 ≤ (pySplit (pyStrip line)).length
  · rw [if_pos hlen]
    cases hint : pyIntOf ((pySplit (pyStrip line)).getD 2 "") with
    | none => simp [hlen, hint]
    | some sh =>
      cases hfl : pyFloatOf ((pySplit (pyStrip line)).getD 4 "") with
      | none => simp [hlen, hint, hfl]
      | some pr => simp [hlen, hint, hfl]
  · rw [if_neg hlen]
    simp [hlen]

/-- Witness for the amended C5 at the `"at"`-free line of the
counterexample. -/
theorem sell_action_iff_tokens_convert_inst :
    (parseLine "- SELL 10 x 4.5 r").isSome :=
  (sell_action_iff_tokens_convert "- SELL 10 x 4.5 r" (by decide)).mpr (by decide)

/-- `List.filterMap` is the in-order concatenation of the per-element
outputs. -/
theorem filterMap_eq_flatten_map {α β : Type} (f : α → Option β) (l : List α) :
    l.filterMap f = (l.map (fun x => (f x).toList)).flatten := by
  induction l with
  | nil => rfl
  | cons x xs ih => cases hfx : f x <;> simp [List.filterMap_cons, hfx, ih]

/-- C6: a line whose stripped form starts with none of `"- HOLD"`, `"- SELL"`,
`"- BUY"` contributes no action; the output is the in-order concatenation of
what each input line contributes (so matching lines keep their order and
identical actions are all kept); and a text repeating the same HOLD line
twice yields that action twice, undeduplicated. -/
theorem parser_ignores_unmatched_lines :
    (∀ line : String,
        pyStartsWith (pyStrip line) "- HOLD" = false →
        pyStartsWith (pyStrip line) "- SELL" = false →
        pyStartsWith (pyStrip line) "- BUY" = false →
        parseLine line = none) ∧
    (∀ text : String,
        parse_actions text = ((pySplitLines text).map (fun l => (parseLine l).toList)).flatten) ∧
    parse_actions "- HOLD A: x\nskip me\n- HOLD A: x" =
      [TradeAction.HOLD "HOLD" "A: x", TradeAction.HOLD "HOLD" "A: x"] := by
  refine ⟨fun line h1 h2 h3 => ?_, fun text => filterMap_eq_flatten_map _ _, by decide⟩
  unfold parseLine parseStripped
  rw [h1, h2, h3]
  simp only [Bool.false_eq_true, if_false]

/-- Witness for C6 at a free-text line matching no action prefix. -/
theorem parser_ignores_unmatched_lines_inst :
    parseLine "ANALYSIS: the market looks rough" = none :=
  parser_ignores_unmatched_lines.1 "ANALYSIS: the market looks rough"
    (by decide) (by decide) (by decide)

/-- The fold `pandas` uses for a column maximum either returns its starting
value or a value from the list. -/
theorem foldl_strmax_attained (l : List HoldingRow) (a : String) :
    l.foldl (fun acc x => if pyStrLt acc x.Date then x.Date else acc) a = a ∨
    ∃ x ∈ l, l.foldl (fun acc x => if pyStrLt acc x.Date then x.Date else acc) a = x.Date := by
  induction l generalizing a with
  | nil => exact Or.inl rfl
  | cons y ys ih =>
    simp only [List.foldl_cons]
    by_cases hy : pyStrLt a y.Date = true
    · rw [if_pos hy]
      rcases ih y.Date with h | ⟨x, hx, h⟩
      · exact Or.inr ⟨y, List.mem_cons_self y ys, h⟩
      · exact Or.inr ⟨x, List.mem_cons_of_mem _ hx, h⟩
    · rw [if_neg hy]
      rcases ih a with h | ⟨x, hx, h⟩
      · exact Or.inl h
      · exact Or.inr ⟨x, List.mem_cons_of_mem _ hx, h⟩

/-- On a nonempty table, `maxDate` is the date of some row. -/
theorem maxDate_attained (p : List HoldingRow) (h : p ≠ []) :
    ∃ r ∈ p, r.Date = maxDate p := by
  match p with
  | [] => exact absurd rfl h
  | r :: rs =>
    unfold maxDate
    rcases foldl_strmax_attained rs r.Date with h1 | ⟨x, hx, h1⟩
    · exact ⟨r, List.mem_cons_self r rs, h1.symm⟩
    · exact ⟨x, List.mem_cons_of_mem _ hx, h1.symm⟩

/-- A filter is, up to order, the concatenation of its `Q`-negative and
`Q`-positive parts. -/
theorem filter_perm_split {α : Type} (l : List α) (P Q : α → Bool) :
    (l.filter P).Perm
      (l.filter (fun a => P a && !Q a) ++ l.filter (fun a => P a && Q a)) := by
  induction l with
  | nil => simp
  | cons x xs ih =>
    by_cases hP : P x = true
    · by_cases hQ : Q x = true
      · rw [List.filter_cons_of_pos hP,
          List.filter_cons_of_neg (by simp [hP, hQ]),
          List.filter_cons_of_pos (by simp [hP, hQ])]
        exact (ih.cons x).trans List.perm_middle.symm
      · rw [List.filter_cons_of_pos hP,
          List.filter_cons_of_pos (by simp [hP, hQ]),
          List.filter_cons_of_neg (by simp [hP, hQ])]
        rw [List.cons_append]
        exact ih.cons x
    · rw [List.filter_cons_of_neg (by simp [hP]),
        List.filter_cons_of_neg (by simp [hP]),
        List.filter_cons_of_neg (by simp [hP])]
      exact ih

/-- C7: for a nonempty holdings table with exactly one TOTAL row per occurring
date, the rows `api_portfolio` selects for the latest date are — up to the
interleaving order of the original table — exactly the dashboard's non-TOTAL
rows of the maximum date together with the TOTAL rows of that date, of which
there is exactly one. -/
theorem latest_snapshot_rows (p : List HoldingRow) (hne : p ≠ [])
    (huniq : ∀ r ∈ p,
      (p.filter (fun x => x.Date == r.Date && x.Ticker == "TOTAL")).length = 1) :
    (latest_data p).Perm
      (latest_portfolio p ++
        p.filter (fun x => x.Date == maxDate p && x.Ticker == "TOTAL")) ∧
    (p.filter (fun x => x.Date == maxDate p && x.Ticker == "TOTAL")).length = 1 := by
  obtain ⟨r0, hr0mem, hr0⟩ := maxDate_attained p hne
  have h1 := huniq r0 hr0mem
  rw [hr0] at h1
  refine ⟨?_, h1⟩
  have hperm := filter_perm_split p (fun x => x.Date == maxDate p) (fun x => x.Ticker == "TOTAL")
  unfold latest_data latest_portfolio
  exact hperm

/-- Witness for C7 on the two-day sample table. -/
theorem latest_snapshot_rows_inst :
    (latest_data sampleHoldings).Perm
      (latest_portfolio sampleHoldings ++
        sampleHoldings.filter
          (fun x => x.Date == maxDate sampleHoldings && x.Ticker == "TOTAL")) ∧
    (sampleHoldings.filter
        (fun x => x.Date == maxDate sampleHoldings && x.Ticker == "TOTAL")).length = 1 :=
  latest_snapshot_rows sampleHoldings (by decide) (by decide)

/-- C8: with both CSV files absent, the loaders return empty tables and each
of the three `/api/*` routes answers 200 with the empty JSON array. -/
theorem missing_files_yield_empty_200 :
    load_portfolio_data none = [] ∧
    load_trade_data (none : Option (List TradeLogRow)) = [] ∧
    api_portfolio_route none = (200, []) ∧
    api_performance_route none = (200, []) ∧
    api_trades_route (none : Option (List TradeLogRow)) = (200, []) :=
  ⟨rfl, rfl, rfl, rfl, rfl⟩

/-- Closed form of `advance`: surviving rows, credited cash and forced-sell
log are independent per-position projections of the holdings. -/
theorem advance_spec (h : List PositionRow) (c : Rat) (f : String → Option Rat) :
    advance h c f =
      (h.filterMap (keepRow f),
       c + (h.map (stopContribution f)).sum,
       h.filterMap (sellLog f)) := by
  induction h generalizing c with
  | nil => simp [advance]
  | cons pos rest ih =>
    cases hq : f pos.ticker with
    | none =>
      simp only [advance, hq, List.filterMap_cons, List.map_cons, List.sum_cons, ih,
        keepRow, stopContribution, sellLog]
      refine Prod.ext rfl (Prod.ext ?_ rfl)
      show c + _ = c + (0 + _)
      rw [zero_add]
    | some q =>
      by_cases hle : q ≤ pos.stop_loss
      · simp only [advance, hq, if_pos hle, List.filterMap_cons, List.map_cons,
          List.sum_cons, ih, keepRow, stopContribution, sellLog]
        refine Prod.ext rfl (Prod.ext ?_ rfl)
        show c + pos.shares * q + _ = c + (pos.shares * q + _)
        ring
      · simp only [advance, hq, if_neg hle, List.filterMap_cons, List.map_cons,
          List.sum_cons, ih, keepRow, stopContribution, sellLog]
        refine Prod.ext rfl (Prod.ext ?_ rfl)
        show c + _ = c + (0 + _)
        rw [zero_add]

/-- No surviving row can equal a position whose stop-loss fired: surviving
rows either have no fresh price or carry a fresh price above their
stop-loss. -/
theorem keepRow_never_some_of_stopped (f : String → Option Rat) (p : Rat)
    (pos a : PositionRow) (hp : f pos.ticker = some p) (hstop : p ≤ pos.stop_loss)
    (h : keepRow f a = some pos) : False := by
  unfold keepRow at h
  cases hq : f a.ticker with
  | none =>
    rw [hq] at h
    have ha : a = pos := Option.some.inj h
    rw [ha] at hq
    rw [hq] at hp
    exact Option.noConfusion hp
  | some q =>
    rw [hq] at h
    have h' : (if q ≤ a.stop_loss then none else some (refreshRow a q)) = some pos := h
    by_cases hle : q ≤ a.stop_loss
    · rw [if_pos hle] at h'
      exact Option.noConfusion h'
    · rw [if_neg hle] at h'
      have hrefresh : refreshRow a q = pos := Option.some.inj h'
      have hticker : a.ticker = pos.ticker := by rw [← hrefresh]; rfl
      have hsl : a.stop_loss = pos.stop_loss := by rw [← hrefresh]; rfl
      rw [hticker, hp] at hq
      have hqp : q = p := (Option.some.inj hq).symm
      exact hle (by rw [hqp, hsl]; exact hstop)

/-- C9: a held position with a fresh price at or below its stop-loss is
removed from the resulting holdings; relative to the same holdings without
that position, the resulting cash is higher by exactly `shares × price` and
the trade log gains exactly one extra row — the SELL record for that
position. -/
theorem advance_stop_loss_forces_sell (h₁ h₂ : List PositionRow) (pos : PositionRow)
    (c : Rat) (f : String → Option Rat) (p : Rat)
    (hp : f pos.ticker = some p) (hstop : p ≤ pos.stop_loss) :
    pos ∉ (advance (h₁ ++ pos :: h₂) c f).1 ∧
    (advance (h₁ ++ pos :: h₂) c f).2.1 = (advance (h₁ ++ h₂) c f).2.1 + pos.shares * p ∧
    (advance (h₁ ++ pos :: h₂) c f).2.2.Perm
      (sellRow pos p :: (advance (h₁ ++ h₂) c f).2.2) := by
  have hcontrib : stopContribution f pos = pos.shares * p := by
    unfold stopContribution
    rw [hp]
    show (if p ≤ pos.stop_loss then pos.shares * p else 0) = pos.shares * p
    rw [if_pos hstop]
  have hlog : sellLog f pos = some (sellRow pos p) := by
    unfold sellLog
    rw [hp]
    show (if p ≤ pos.stop_loss then some (sellRow pos p) else none) = some (sellRow pos p)
    rw [if_pos hstop]
  refine ⟨?_, ?_, ?_⟩
  · rw [advance_spec]
    intro hmem
    have hmem' : pos ∈ (h₁ ++ pos :: h₂).filterMap (keepRow f) := hmem
    rw [List.mem_filterMap] at hmem'
    obtain ⟨a, -, hstep⟩ := hmem'
    exact keepRow_never_some_of_stopped f p pos a hp hstop hstep
  · rw [advance_spec, advance_spec]
    show c + ((h₁ ++ pos :: h₂).map (stopContribution f)).sum =
      c + ((h₁ ++ h₂).map (stopContribution f)).sum + pos.shares * p
    rw [List.map_append, List.sum_append, List.map_cons, List.sum_cons,
      List.map_append, List.sum_append, hcontrib]
    ring
  · rw [advance_spec, advance_spec]
    show ((h₁ ++ pos :: h₂).filterMap (sellLog f)).Perm
      (sellRow pos p :: (h₁ ++ h₂).filterMap (sellLog f))
    rw [List.filterMap_append, List.filterMap_append, List.filterMap_cons, hlog]
    exact List.perm_middle

/-- Witness for C9: one position with stop-loss 5, quoted at 4. -/
theorem advance_stop_loss_forces_sell_inst :
    samplePosition ∉ (advance [samplePosition] 100 samplePrices).1 ∧
    (advance [samplePosition] 100 samplePrices).2.1 =
      (advance [] 100 samplePrices).2.1 + samplePosition.shares * 4 ∧
    (advance [samplePosition] 100 samplePrices).2.2.Perm
      (sellRow samplePosition 4 :: (advance [] 100 samplePrices).2.2) :=
  advance_stop_loss_forces_sell [] [] samplePosition 100 samplePrices 4
    (by decide) (by decide)

/-- Membership in a Python-dict insertion: either an old entry, or the
inserted pair. -/
theorem mem_dictInsert (d : List (String × Rat)) (k : String) (v : Rat)
    (kv : String × Rat) (h : kv ∈ dictInsert d k v) : kv ∈ d ∨ kv = (k, v) := by
  unfold dictInsert at h
  by_cases hany : d.any (fun kv => kv.1 == k) = true
  · rw [if_pos hany] at h
    obtain ⟨kv0, hkv0, heq⟩ := List.mem_map.mp h
    by_cases h0 : kv0.1 == k
    · rw [if_pos h0] at heq
      exact Or.inr heq.symm
    · rw [if_neg h0] at heq
      exact Or.inl (heq ▸ hkv0)
  · rw [if_neg hany] at h
    rcases List.mem_append.mp h with h | h
    · exact Or.inl h
    · exact Or.inr (List.mem_singleton.mp h)

/-- Invariant of the `get_multiple_prices` loop: every stored entry's key was
seen in the start dict or among the remaining tickers, and its value is the
price its own fetch returned. -/
theorem foldl_prices_inv (fetch : String → FetchOutcome) (ts : List String)
    (acc : List (String × Rat))
    (hacc : ∀ kv ∈ acc, get_current_price fetch kv.1 = some kv.2) :
    ∀ kv ∈ ts.foldl (pricesStep fetch) acc,
      (kv ∈ acc ∨ kv.1 ∈ ts) ∧ get_current_price fetch kv.1 = some kv.2 := by
  induction ts generalizing acc with
  | nil =>
    intro kv hm
    exact ⟨Or.inl hm, hacc kv hm⟩
  | cons t ts ih =>
    intro kv hm
    rw [List.foldl_cons] at hm
    cases hq : get_current_price fetch t with
    | none =>
      rw [pricesStep, hq] at hm
      obtain ⟨hin, hQ⟩ := ih acc hacc kv hm
      exact ⟨hin.imp_right (List.mem_cons_of_mem t), hQ⟩
    | some price =>
      rw [pricesStep, hq] at hm
      have hacc' : ∀ kv0 ∈ dictInsert acc t price,
          get_current_price fetch kv0.1 = some kv0.2 := by
        intro kv0 h0
        rcases mem_dictInsert acc t price kv0 h0 with h0 | h0
        · exact hacc kv0 h0
        · rw [h0]
          exact hq
      obtain ⟨hin, hQ⟩ := ih (dictInsert acc t price) hacc' kv hm
      refine ⟨?_, hQ⟩
      rcases hin with hin | hin
      · rcases mem_dictInsert acc t price kv hin with h0 | h0
        · exact Or.inl h0
        · rw [h0]
          exact Or.inr (List.mem_cons_self t ts)
      · exact Or.inr (List.mem_cons_of_mem t hin)

/-- C10: every entry of the dictionary `get_multiple_prices` returns has a key
drawn from the input tickers and, as its value, the price that ticker's own
fetch produced (so no entry is `None`); a ticker whose fetch failed or had no
data never appears among the keys. -/
theorem get_multiple_prices_spec (fetch : String → FetchOutcome) (tickers : List String) :
    (∀ kv ∈ get_multiple_prices fetch tickers,
        kv.1 ∈ tickers ∧ get_current_price fetch kv.1 = some kv.2) ∧
    (∀ t : String, get_current_price fetch t = none →
        t ∉ (get_multiple_prices fetch tickers).map Prod.fst) := by
  have hmain := foldl_prices_inv fetch tickers [] (by intro kv hkv; cases hkv)
  constructor
  · intro kv hkv
    obtain ⟨hin, hQ⟩ := hmain kv hkv
    rcases hin with hin | hin
    · cases hin
    · exact ⟨hin, hQ⟩
  · intro t hnone hmem
    obtain ⟨kv, hkv, hfst⟩ := List.mem_map.mp hmem
    obtain ⟨-, hQ⟩ := hmain kv hkv
    rw [hfst] at hQ
    rw [hnone] at hQ
    exact Option.noConfusion hQ

/-- Witness for C10 on a market where only AAPL quotes. -/
theorem get_multiple_prices_spec_inst :
    ("AAPL", (3 : Rat)).1 ∈ ["AAPL", "MSFT"] ∧
    get_current_price
        (fun t => if t = "AAPL" then FetchOutcome.price_table [3] else FetchOutcome.err)
        ("AAPL", (3 : Rat)).1 =
      some ("AAPL", (3 : Rat)).2 :=
  (get_multiple_prices_spec
      (fun t => if t = "AAPL" then FetchOutcome.price_table [3] else FetchOutcome.err)
      ["AAPL", "MSFT"]).1 ("AAPL", 3) (by decide)
